import Mathlib

/-!
Verification of the claude-toolkit deploy core: the layered config
resolver, the profile overlay, the settings mergers (permissions, hooks,
MCP servers), and the profile-drift detector.

Python strings are modelled as Lean `String`, compared with an explicit
lexicographic order on code points (`lexLtb` on `String.data`), which is
exactly Python's `str` comparison.  Python dicts are modelled as
insertion-ordered association lists, with `lookupD` returning the
binding of the first matching key; JSON-parsed dicts have unique keys,
and all dict operations below mirror CPython semantics on such dicts
(lookup, `{**a, **b}` merge, in-place key update, append of a new key
at the end).  JSON numbers are modelled as integers; none of the
verified operations inspects numeric values.

File-system effects are modelled explicitly: a JSON read is a
`ReadResult` (missing, malformed, or a parsed document), and each
settings routine returns `Option doc` where `none` means the routine
returned without writing the settings file and `some d` means it
atomically wrote the document `d`.
-/

/-- Lexicographic strict comparison of two code-point lists.  This is
Python's `<` on `str` (compare code points left to right). -/
def lexLtb : List Char → List Char → Bool
  | [], [] => false
  | [], _ :: _ => true
  | _ :: _, [] => false
  | a :: as, b :: bs => decide (a < b) || (decide (a = b) && lexLtb as bs)

/-- Python `a < b` on strings. -/
def strLt (a b : String) : Prop := lexLtb a.data b.data = true

/-- Python `a <= b` on strings. -/
def strLe (a b : String) : Prop := strLt a b ∨ a = b

instance : DecidableRel strLt := fun a b => by
  unfold strLt; infer_instance

instance : DecidableRel strLe := fun a b => by
  unfold strLe; infer_instance

/-- Prefix test on strings: Python `s.startswith(p)`. -/
def strStartsWith (s p : String) : Bool := p.data.isPrefixOf s.data

/-- `_PERMISSION_GROUPS` from src/deploy/permissions.py: the ordered
(prefix, group-label) rules driving the grouped permission sort. -/
def _PERMISSION_GROUPS : List (String × String) := [
  ("Bash(cat",      "01-bash-read"),
  ("Bash(column",   "01-bash-read"),
  ("Bash(cut",      "01-bash-read"),
  ("Bash(diff",     "01-bash-read"),
  ("Bash(file",     "01-bash-read"),
  ("Bash(find",     "01-bash-read"),
  ("Bash(grep",     "01-bash-read"),
  ("Bash(head",     "01-bash-read"),
  ("Bash(jq",       "01-bash-read"),
  ("Bash(ls",       "01-bash-read"),
  ("Bash(md5sum",   "01-bash-read"),
  ("Bash(readlink", "01-bash-read"),
  ("Bash(realpath", "01-bash-read"),
  ("Bash(rg",       "01-bash-read"),
  ("Bash(sha256sum","01-bash-read"),
  ("Bash(sort",     "01-bash-read"),
  ("Bash(stat",     "01-bash-read"),
  ("Bash(tail",     "01-bash-read"),
  ("Bash(tar",      "01-bash-read"),
  ("Bash(test",     "01-bash-read"),
  ("Bash(tr",       "01-bash-read"),
  ("Bash(tree",     "01-bash-read"),
  ("Bash(uniq",     "01-bash-read"),
  ("Bash(unzip",    "01-bash-read"),
  ("Bash(wc",       "01-bash-read"),
  ("Bash(which",    "01-bash-read"),
  ("Bash(zip",      "01-bash-read"),
  ("Bash(date",     "02-system"),
  ("Bash(df",       "02-system"),
  ("Bash(du",       "02-system"),
  ("Bash(hostname", "02-system"),
  ("Bash(id",       "02-system"),
  ("Bash(lsof",     "02-system"),
  ("Bash(netstat",  "02-system"),
  ("Bash(printenv", "02-system"),
  ("Bash(ps",       "02-system"),
  ("Bash(pwd",      "02-system"),
  ("Bash(ss",       "02-system"),
  ("Bash(top",      "02-system"),
  ("Bash(uname",    "02-system"),
  ("Bash(uptime",   "02-system"),
  ("Bash(whoami",   "02-system"),
  ("Bash(git ",     "03-git"),
  ("Bash(docker",   "04-docker"),
  ("Bash(gh ",      "05-github"),
  ("Bash(python",   "06-python"),
  ("Bash(python3",  "06-python"),
  ("Bash(pip",      "06-python"),
  ("Bash(pip3",     "06-python"),
  ("Bash(uv ",      "06-python"),
  ("Bash(poetry",   "06-python"),
  ("Bash(pyenv",    "06-python"),
  ("Bash(pipenv",   "06-python"),
  ("Bash(node",     "07-node"),
  ("Bash(npm",      "07-node"),
  ("Bash(npx",      "07-node"),
  ("Bash(yarn",     "07-node"),
  ("Bash(pnpm",     "07-node"),
  ("Bash(nvm",      "07-node"),
  ("Bash(deno",     "07-node"),
  ("Bash(java",     "08-jvm"),
  ("Bash(javac",    "08-jvm"),
  ("Bash(javap",    "08-jvm"),
  ("Bash(jar ",     "08-jvm"),
  ("Bash(gradle",   "08-jvm"),
  ("Bash(./gradlew","08-jvm"),
  ("Bash(mvn",      "08-jvm"),
  ("Bash(kotlin",   "08-jvm"),
  ("Bash(rustc",    "09-rust"),
  ("Bash(rustup",   "09-rust"),
  ("Bash(cargo",    "09-rust"),
  ("Bash(~/.claude/tools/", "10-tools"),
  ("Bash(command",  "10-tools"),
  ("WebFetch",      "11-web")]

/-- `_permission_sort_key` from src/deploy/permissions.py: the first
matching prefix rule gives the group label; entries matching no prefix
fall into the final `99-other` group.  The key is the Python tuple
`(group, entry)`. -/
def _permission_sort_key (entry : String) : String × String :=
  match _PERMISSION_GROUPS.find? (fun pg => strStartsWith entry pg.1) with
  | some pg => (pg.2, entry)
  | none => ("99-other", entry)

/-- The group label assigned to a permission entry by the sort key. -/
def permGroup (entry : String) : String := (_permission_sort_key entry).1

/-- The order that `sorted(..., key=_permission_sort_key)` sorts by:
Python tuple comparison of `(group, entry)`, lexicographic on the
pair. -/
def permLe (a b : String) : Prop :=
  strLt (permGroup a) (permGroup b) ∨ (permGroup a = permGroup b ∧ strLe a b)

/-- Strict version of `permLe`. -/
def permLt (a b : String) : Prop := permLe a b ∧ a ≠ b

instance : DecidableRel permLe := fun a b => by
  unfold permLe; infer_instance

instance : DecidableRel permLt := fun a b => by
  unfold permLt; infer_instance

/-- `sorted(s, key=_permission_sort_key)`: the unique `permLe`-sorted
arrangement of the given entries. -/
def sortedPerms (l : List String) : List String := List.insertionSort permLe l

/-- Merged allow (or deny) list of `update_settings_permissions`
(src/deploy/permissions.py lines 52-53): `sorted(set(existing) |
set(new), key=_permission_sort_key)`. -/
def mergePermLists (existing new : List String) : List String :=
  sortedPerms ((existing ++ new).dedup)

/-- The `permissions` section of a settings document. -/
structure PermissionsSection where
  allow : List String
  deny : List String
deriving DecidableEq

/-- Pure core of `update_settings_permissions`
(src/deploy/permissions.py lines 47-58): union existing and new
entries, dedupe, and re-sort both the allow and the deny arrays. -/
def update_settings_permissions (doc : PermissionsSection)
    (allows denies : List String) : PermissionsSection :=
  { allow := mergePermLists doc.allow allows
    deny := mergePermLists doc.deny denies }

/-- Position of a string in a list (`l.index(a)` in Python terms);
length of the list when absent. -/
def posIdx : List String → String → Nat
  | [], _ => 0
  | x :: xs, a => if x = a then 0 else posIdx xs a + 1

/-- The fixed group list, in the order the groups appear in
`_PERMISSION_GROUPS`, followed by the catch-all group. -/
def groupOrderList : List String :=
  ["01-bash-read", "02-system", "03-git", "04-docker", "05-github",
   "06-python", "07-node", "08-jvm", "09-rust", "10-tools", "11-web",
   "99-other"]

/-- First-match lookup in an insertion-ordered dict (Python `d.get(k)` /
`d[k]` on dicts with unique keys). -/
def lookupD {α : Type} : List (String × α) → String → Option α
  | [], _ => none
  | p :: rest, k => if p.1 = k then some p.2 else lookupD rest k

/-- Python `k in d`. -/
def memD {α : Type} (d : List (String × α)) (k : String) : Bool :=
  (lookupD d k).isSome

/-- Python `{**a, **b}`: keys of `a` in order with values overridden by
`b` where present, followed by keys of `b` not in `a`, in `b`'s
order. -/
def mergeD {α : Type} (a b : List (String × α)) : List (String × α) :=
  (a.map (fun p =>
    match lookupD b p.1 with
    | some v => (p.1, v)
    | none => p))
  ++ b.filter (fun p => !(memD a p.1))

/-- Python `d[k] = v`: update the (unique) existing binding in place, or
append a new binding at the end. -/
def setD {α : Type} : List (String × α) → String → α → List (String × α)
  | [], k, v => [(k, v)]
  | p :: rest, k, v =>
      if p.1 = k then (p.1, v) :: rest else p :: setD rest k v

/-- Python `del d[k]` for a present (unique) key. -/
def removeKeyD {α : Type} : List (String × α) → String → List (String × α)
  | [], _ => []
  | p :: rest, k => if p.1 = k then rest else p :: removeKeyD rest k

/-- The first defined of two optional values. -/
def firstSome {α : Type} (x y : Option α) : Option α :=
  match x with
  | some v => some v
  | none => y

/-- JSON values.  Numbers are modelled as integers; no verified
operation inspects numeric values. -/
inductive JVal where
  | null
  | bool (b : Bool)
  | num (n : Int)
  | str (s : String)
  | arr (elems : List JVal)
  | obj (fields : List (String × JVal))

instance (v : JVal) : Decidable (v = JVal.null) :=
  match v with
  | JVal.null => isTrue rfl
  | JVal.bool _ => isFalse (fun h => JVal.noConfusion h)
  | JVal.num _ => isFalse (fun h => JVal.noConfusion h)
  | JVal.str _ => isFalse (fun h => JVal.noConfusion h)
  | JVal.arr _ => isFalse (fun h => JVal.noConfusion h)
  | JVal.obj _ => isFalse (fun h => JVal.noConfusion h)

/-- A JSON object: an insertion-ordered dict of JSON values. -/
abbrev JDict := List (String × JVal)

/-- `DEFAULTS` from src/deploy-py/deploy/config.py. -/
def DEFAULTS : JDict :=
  [("enabled", JVal.bool true), ("scope", JVal.str "global"),
   ("on_path", JVal.bool false)]

/-- Pure core of `resolve_config` (src/deploy-py/deploy/config.py lines
18-37) applied to the four loaded layer documents:
`functools.reduce(lambda a, b: {**a, **b}, layers)` over defaults, repo
`deploy.json`, repo `deploy.local.json`, item `deploy.json`, item
`deploy.local.json`. -/
def resolve_config (repo_deploy repo_local item_deploy item_local : JDict) :
    JDict :=
  mergeD (mergeD (mergeD (mergeD DEFAULTS repo_deploy) repo_local)
    item_deploy) item_local

/-- A deployment profile document: item-kind → (item-name → entry),
each entry a JSON object. -/
abbrev ProfileDoc := List (String × List (String × JDict))

/-- `profile_data.get(item_type, {})`. -/
def profileItems (profile_data : ProfileDoc) (item_type : String) :
    List (String × JDict) :=
  match lookupD profile_data item_type with
  | some m => m
  | none => []

/-- The whitelist condition of the profile-entry dict comprehension
(src/deploy-py/deploy/config.py lines 60-61): keep only `enabled` and
`on_path` keys whose value is not null. -/
def profileKeyAllowed (p : String × JVal) : Bool :=
  (decide (p.1 = "enabled") || decide (p.1 = "on_path"))
  && (match p.2 with
      | JVal.null => false
      | _ => true)

/-- `apply_profile_overrides` from src/deploy-py/deploy/config.py lines
40-62: empty profile is the identity; an item absent from
`profile_data[item_type]` is forced `enabled=False`; otherwise only the
non-null `enabled`/`on_path` keys of the profile entry are right-merged
onto the config. -/
def apply_profile_overrides (config : JDict) (profile_data : ProfileDoc)
    (item_type item_name : String) : JDict :=
  match profile_data with
  | [] => config
  | _ :: _ =>
    let items := profileItems profile_data item_type
    match lookupD items item_name with
    | none => mergeD config [("enabled", JVal.bool false)]
    | some item_overrides =>
      let allowed := item_overrides.filter profileKeyAllowed
      mergeD config allowed

/-- Outcome of reading a JSON file: the file is absent, its contents do
not parse, or it parses to an object. -/
inductive ReadResult where
  | missing
  | malformed
  | ok (d : JDict)

/-- `load_json` from src/deploy-py/deploy/config.py lines 10-15: a
missing file (`FileNotFoundError`) or unparsable contents
(`json.JSONDecodeError`) yield the empty object; the function never
raises. -/
def load_json : ReadResult → JDict
  | ReadResult.missing => []
  | ReadResult.malformed => []
  | ReadResult.ok d => d

/-- `resolve_config` including the four file reads. -/
def resolve_config_files (repo_deploy repo_local item_deploy item_local :
    ReadResult) : JDict :=
  resolve_config (load_json repo_deploy) (load_json repo_local)
    (load_json item_deploy) (load_json item_local)

/-- One hook entry written under a matcher group:
`{"type": "command", "command": path}` plus the optional `async: true`
and `timeout` passthrough (src/deploy/permissions.py lines 101-105).
`asyncFlag` records whether the `async` key is present. -/
structure HookEntry where
  typ : String
  command : String
  asyncFlag : Bool
  timeout : Option Int
deriving DecidableEq

/-- A matcher group `{matcher?, hooks: [...]}`; `matcher := none` means
the `matcher` key is absent (Python `g.get("matcher")` returns `None`
for it). -/
structure MatcherGroup where
  matcher : Option String
  hooks : List HookEntry
deriving DecidableEq

/-- The `hooks` section of a settings document: event name → list of
matcher groups. -/
abbrev HooksDict := List (String × List MatcherGroup)

/-- The per-event append loop of `update_settings_hooks`
(src/deploy/permissions.py lines 124-130): a new group is appended only
when no group already in the (growing) list has an equal `matcher`
value. -/
def mergeMatcherGroups (existing incoming : List MatcherGroup) :
    List MatcherGroup :=
  incoming.foldl (fun acc g =>
    if acc.any (fun g2 => decide (g2.matcher = g.matcher)) then acc
    else acc ++ [g]) existing

/-- The settings merge of `update_settings_hooks`
(src/deploy/permissions.py lines 118-132): for each event of the newly
built hooks dict, create the event's (possibly empty) group list if
absent and append the missing matcher groups. -/
def update_settings_hooks_merge (existing_hooks new_hooks : HooksDict) :
    HooksDict :=
  new_hooks.foldl (fun eh p =>
    setD eh p.1 (mergeMatcherGroups
      (match lookupD eh p.1 with
       | some gs => gs
       | none => []) p.2)) existing_hooks

/-- Control flow of `update_settings_hooks` (src/deploy/permissions.py
lines 66-133) around the merge: `none` means the routine returned
without reading or writing the settings file.  The construction of
`new_hooks` from the loaded configs is abstracted as `build`; the
skip-flag and the empty-input check fire before any file access. -/
def update_settings_hooks_run (skip_permissions dry_run : Bool)
    (hook_configs : List (String × JDict))
    (build : List (String × JDict) → HooksDict)
    (existing : HooksDict) : Option HooksDict :=
  if skip_permissions then none
  else
    match hook_configs with
    | [] => none
    | _ :: _ =>
        if dry_run then none
        else some (update_settings_hooks_merge existing (build hook_configs))

/-- The append loop of `update_settings_mcp` (src/deploy/permissions.py
lines 167-169): add `name → server_def` only when `name` is not already
a key. -/
def update_settings_mcp_merge (existing_servers : JDict)
    (mcp_configs : List (String × JVal)) : JDict :=
  mcp_configs.foldl (fun acc p =>
    if memD acc p.1 then acc else acc ++ [p]) existing_servers

/-- `existing.get("mcpServers", {})` on a settings document. -/
def serversOf (doc : JDict) : JDict :=
  match lookupD doc "mcpServers" with
  | some (JVal.obj o) => o
  | _ => []

/-- Control flow of `update_settings_mcp` (src/deploy/permissions.py
lines 139-175): `none` means no settings file was read or written.  The
project-path branch only selects the target file and is not modelled. -/
def update_settings_mcp_run (skip_permissions dry_run : Bool)
    (mcp_configs : List (String × JVal)) (doc : JDict) : Option JDict :=
  if skip_permissions then none
  else
    match mcp_configs with
    | [] => none
    | _ :: _ =>
        if dry_run then none
        else some (setD doc "mcpServers"
          (JVal.obj (update_settings_mcp_merge (serversOf doc) mcp_configs)))

/-- `remove_settings_mcp` from src/deploy/permissions.py lines 178-206:
delete each named server that is present, and rewrite the settings file
only when at least one was found; `none` means no write happened. -/
def remove_settings_mcp (doc : JDict) (server_names : List String)
    (dry_run : Bool) : Option JDict :=
  match server_names with
  | [] => none
  | _ :: _ =>
      if dry_run then none
      else
        let res := server_names.foldl
          (fun (st : JDict × List String) n =>
            if memD st.1 n then (removeKeyD st.1 n, st.2 ++ [n]) else st)
          (serversOf doc, [])
        match res.2 with
        | [] => none
        | _ :: _ => some (setD doc "mcpServers" (JVal.obj res.1))

/-- Modelled from the spec: one `hooks_config` record of the deploy-py
hooks merger (`deploy-py/deploy.py`, absent from src/; only its tests,
src/deploy-py/tests/test_deploy_hooks.py, are present).  Spec section
4.5: each source yields records `{event, matcher?, command_script,
async?, timeout?}`; a record may omit `matcher`. -/
structure HookRecord where
  event : Option String
  matcher : Option String
  command_script : Option String
  asyncFlag : Bool
  timeout : Option Int
deriving DecidableEq

/-- Modelled from the spec: a `hooks_config` value may be a single
record object or an array of record objects — both are accepted (spec
section 4.5; implemented by `deploy-py/deploy.py`, absent from
src/). -/
inductive HooksConfigSource where
  | one (r : HookRecord)
  | many (rs : List HookRecord)

/-- Modelled from the spec: the records contributed by a
`hooks_config` value. -/
def hooksConfigRecords : HooksConfigSource → List HookRecord
  | HooksConfigSource.one r => [r]
  | HooksConfigSource.many rs => rs

/-- Modelled from the spec: build the `(event, matcherGroup)` pair for
one record — hook entry `{type: "command", command:
<hooksBase>/<hookName>/<command_script>}` plus the optional
`async`/`timeout` passthrough, wrapped as `{matcher?, hooks:
[entry]}`.  A record needs an event and a command script; the matcher
is optional. -/
def buildMatcherGroup (hooks_base hook_name : String) (r : HookRecord) :
    Option (String × MatcherGroup) :=
  match r.event, r.command_script with
  | some e, some cs =>
      some (e,
        { matcher := r.matcher
          hooks := [{ typ := "command"
                      command := hooks_base ++ "/" ++ hook_name ++ "/" ++ cs
                      asyncFlag := r.asyncFlag
                      timeout := r.timeout }] })
  | _, _ => none

/-- Modelled from the spec: all `(event, matcherGroup)` pairs
contributed by one hook's `hooks_config` value. -/
def buildGroupsFromSource (hooks_base hook_name : String)
    (src : HooksConfigSource) : List (String × MatcherGroup) :=
  (hooksConfigRecords src).filterMap (buildMatcherGroup hooks_base hook_name)

/-- `sorted(...)` on plain strings. -/
def sortedStrs (l : List String) : List String := List.insertionSort strLe l

/-- One per-kind loop of `check_profile_drift`
(src/deploy/profiles.py lines 41-55): the sorted profile-declared names
of the kind that were not seen on disk, each tagged with the kind
label. -/
def drift_block (profile_names seen : List String) (label : String) :
    List String :=
  ((sortedStrs profile_names.dedup).filter (fun k => !(decide (k ∈ seen)))).map
    (fun k => k ++ " (" ++ label ++ ")")

/-- `profile_data.get(kind, {}).keys()`. -/
def keysOfKind (profile_data : ProfileDoc) (kind : String) : List String :=
  (match lookupD profile_data kind with
   | some m => m
   | none => []).map Prod.fst

/-- `check_profile_drift` from src/deploy/profiles.py lines 22-57: the
stale items — profile-declared names not seen on disk — computed per
kind (skills, hooks, mcp, permissions).  The optional seen lists default
to empty (`None` parameters). -/
def check_profile_drift (seen_skills seen_hooks : List String)
    (profile_data : ProfileDoc)
    (seen_mcp seen_permissions : Option (List String)) : List String :=
  match profile_data with
  | [] => []
  | _ :: _ =>
      drift_block (keysOfKind profile_data "skills") seen_skills "skills"
      ++ drift_block (keysOfKind profile_data "hooks") seen_hooks "hooks"
      ++ drift_block (keysOfKind profile_data "mcp") (seen_mcp.getD []) "mcp"
      ++ drift_block (keysOfKind profile_data "permissions")
          (seen_permissions.getD []) "permissions"

/-! ## Order facts for the string and permission orders -/

lemma lexLtb_irrefl : ∀ l : List Char, lexLtb l l = false := by
  intro l
  induction l with
  | nil => rfl
  | cons a as ih =>
      simp [lexLtb, ih, lt_irrefl]

lemma lexLtb_asymm : ∀ l₁ l₂ : List Char,
    lexLtb l₁ l₂ = true → lexLtb l₂ l₁ = false := by
  intro l₁
  induction l₁ with
  | nil =>
      intro l₂ h
      cases l₂ with
      | nil => simpa [lexLtb] using h
      | cons b bs => rfl
  | cons a as ih =>
      intro l₂ h
      cases l₂ with
      | nil => simpa [lexLtb] using h
      | cons b bs =>
          simp only [lexLtb, Bool.or_eq_true, Bool.and_eq_true,
            decide_eq_true_eq] at h ⊢
          rcases h with hab | ⟨hab, hrec⟩
          · have h1 : ¬ b < a := not_lt.mpr (le_of_lt hab)
            have h2 : b ≠ a := ne_of_gt hab
            simp [h1, h2]
          · subst hab
            have h3 := ih bs hrec
            simp [lt_irrefl, h3]

lemma lexLtb_trans : ∀ l₁ l₂ l₃ : List Char,
    lexLtb l₁ l₂ = true → lexLtb l₂ l₃ = true → lexLtb l₁ l₃ = true := by
  intro l₁
  induction l₁ with
  | nil =>
      intro l₂ l₃ h12 h23
      cases l₂ with
      | nil => simpa [lexLtb] using h12
      | cons b bs =>
          cases l₃ with
          | nil => simpa [lexLtb] using h23
          | cons c cs => rfl
  | cons a as ih =>
      intro l₂ l₃ h12 h23
      cases l₂ with
      | nil => simpa [lexLtb] using h12
      | cons b bs =>
          cases l₃ with
          | nil => simpa [lexLtb] using h23
          | cons c cs =>
              simp only [lexLtb, Bool.or_eq_true, Bool.and_eq_true,
                decide_eq_true_eq] at h12 h23 ⊢
              rcases h12 with hab | ⟨hab, hr12⟩
              · rcases h23 with hbc | ⟨hbc, _⟩
                · exact Or.inl (lt_trans hab hbc)
                · exact Or.inl (hbc ▸ hab)
              · subst hab
                rcases h23 with hbc | ⟨hbc, hr23⟩
                · exact Or.inl hbc
                · exact Or.inr ⟨hbc, ih bs cs hr12 hr23⟩

lemma lexLtb_total : ∀ l₁ l₂ : List Char,
    lexLtb l₁ l₂ = true ∨ l₁ = l₂ ∨ lexLtb l₂ l₁ = true := by
  intro l₁
  induction l₁ with
  | nil =>
      intro l₂
      cases l₂ with
      | nil => exact Or.inr (Or.inl rfl)
      | cons b bs => exact Or.inl rfl
  | cons a as ih =>
      intro l₂
      cases l₂ with
      | nil => exact Or.inr (Or.inr rfl)
      | cons b bs =>
          rcases lt_trichotomy a b with hab | hab | hab
          · exact Or.inl (by simp [lexLtb, hab])
          · subst hab
            rcases ih bs with h | h | h
            · exact Or.inl (by simp [lexLtb, h])
            · exact Or.inr (Or.inl (by rw [h]))
            · exact Or.inr (Or.inr (by simp [lexLtb, h]))
          · exact Or.inr (Or.inr (by simp [lexLtb, hab]))

lemma strLt_trans {a b c : String} (h₁ : strLt a b) (h₂ : strLt b c) :
    strLt a c :=
  lexLtb_trans a.data b.data c.data h₁ h₂

lemma strLt_asymm {a b : String} (h : strLt a b) : ¬ strLt b a := by
  intro h'
  have hfalse := lexLtb_asymm a.data b.data h
  rw [h'] at hfalse
  exact absurd hfalse (by decide)

lemma strLt_total (a b : String) : strLt a b ∨ a = b ∨ strLt b a := by
  rcases lexLtb_total a.data b.data with h | h | h
  · exact Or.inl h
  · exact Or.inr (Or.inl (String.ext h))
  · exact Or.inr (Or.inr h)

lemma strLt_irrefl (a : String) : ¬ strLt a a := by
  intro h
  rw [strLt, lexLtb_irrefl] at h
  exact Bool.false_ne_true h

instance : IsTotal String strLe :=
  ⟨fun a b => by
    rcases strLt_total a b with h | h | h
    · exact Or.inl (Or.inl h)
    · exact Or.inl (Or.inr h)
    · exact Or.inr (Or.inl h)⟩

instance : IsTrans String strLe :=
  ⟨fun a b c hab hbc => by
    rcases hab with hab | hab
    · rcases hbc with hbc | hbc
      · exact Or.inl (strLt_trans hab hbc)
      · exact Or.inl (hbc ▸ hab)
    · subst hab; exact hbc⟩

instance : IsAntisymm String strLe :=
  ⟨fun a b hab hba => by
    rcases hab with hab | hab
    · rcases hba with hba | hba
      · exact absurd hba (strLt_asymm hab)
      · exact hba.symm
    · exact hab⟩

instance : IsRefl String strLe := ⟨fun _ => Or.inr rfl⟩

instance : IsTotal String permLe :=
  ⟨fun a b => by
    rcases strLt_total (permGroup a) (permGroup b) with h | h | h
    · exact Or.inl (Or.inl h)
    · rcases (IsTotal.total (r := strLe) a b) with h' | h'
      · exact Or.inl (Or.inr ⟨h, h'⟩)
      · exact Or.inr (Or.inr ⟨h.symm, h'⟩)
    · exact Or.inr (Or.inl h)⟩

instance : IsTrans String permLe :=
  ⟨fun a b c hab hbc => by
    rcases hab with hab | ⟨hab, hab'⟩
    · rcases hbc with hbc | ⟨hbc, _⟩
      · exact Or.inl (strLt_trans hab hbc)
      · exact Or.inl (hbc ▸ hab)
    · rcases hbc with hbc | ⟨hbc, hbc'⟩
      · exact Or.inl (hab ▸ hbc)
      · exact Or.inr ⟨hab.trans hbc, Trans.trans hab' hbc'⟩⟩

instance : IsAntisymm String permLe :=
  ⟨fun a b hab hba => by
    rcases hab with hab | ⟨hab, hab'⟩
    · rcases hba with hba | ⟨hba, _⟩
      · exact absurd hba (strLt_asymm hab)
      · exact absurd hab (hba ▸ strLt_irrefl _)
    · rcases hba with hba | ⟨_, hba'⟩
      · exact absurd hba (hab ▸ strLt_irrefl _)
      · exact antisymm hab' hba'⟩

/-! ## Dict lemmas -/

lemma lookupD_append {α : Type} (l₁ l₂ : List (String × α)) (k : String) :
    lookupD (l₁ ++ l₂) k = firstSome (lookupD l₁ k) (lookupD l₂ k) := by
  induction l₁ with
  | nil => simp [lookupD, firstSome]
  | cons p rest ih =>
      by_cases h : p.1 = k
      · simp [lookupD, h, firstSome]
      · simp [lookupD, h, ih]

lemma lookupD_filter_keyPred {α : Type} (P : String → Bool)
    (b : List (String × α)) (k : String) :
    lookupD (b.filter (fun p => P p.1)) k
      = if P k then lookupD b k else none := by
  induction b with
  | nil => simp [lookupD]
  | cons p rest ih =>
      by_cases hk : p.1 = k
      · subst hk
        by_cases hP : P p.1
        · simp [List.filter, hP, lookupD]
        · simp [List.filter, hP, lookupD, ih]
      · by_cases hP : P p.1
        · simp [List.filter, hP, lookupD, hk, ih]
        · simp [List.filter, hP, lookupD, hk, ih]

lemma lookupD_map_merge {α : Type} (b : List (String × α)) :
    ∀ (a : List (String × α)) (k : String),
    lookupD (a.map (fun p =>
      match lookupD b p.1 with
      | some v => (p.1, v)
      | none => p)) k
      = match lookupD a k with
        | some w => some (match lookupD b k with
                          | some v => v
                          | none => w)
        | none => none := by
  intro a
  induction a with
  | nil => intro k; simp [lookupD]
  | cons p rest ih =>
      intro k
      by_cases hk : p.1 = k
      · subst hk
        cases hb : lookupD b p.1 with
        | none => simp [lookupD, hb]
        | some v => simp [lookupD, hb]
      · cases hb : lookupD b p.1 with
        | none => simp [lookupD, hb, hk, ih]
        | some v => simp [lookupD, hb, hk, ih]

lemma lookupD_mergeD {α : Type} (a b : List (String × α)) (k : String) :
    lookupD (mergeD a b) k = firstSome (lookupD b k) (lookupD a k) := by
  unfold mergeD
  rw [lookupD_append, lookupD_map_merge b a k,
    lookupD_filter_keyPred (fun s => !(memD a s)) b k]
  cases ha : lookupD a k with
  | some w =>
      have hm : memD a k = true := by simp [memD, ha]
      cases hb : lookupD b k with
      | none => simp [firstSome, hm]
      | some v => simp [firstSome, hm]
  | none =>
      have hm : memD a k = false := by simp [memD, ha]
      cases hb : lookupD b k with
      | none => simp [firstSome, hm]
      | some v => simp [firstSome, hm]

lemma lookupD_setD_self {α : Type} (d : List (String × α)) (k : String)
    (v : α) : lookupD (setD d k v) k = some v := by
  induction d with
  | nil => simp [setD, lookupD]
  | cons p rest ih =>
      by_cases h : p.1 = k
      · simp [setD, h, lookupD]
      · simp [setD, h, lookupD, ih]

lemma lookupD_setD_other {α : Type} (d : List (String × α))
    (k k' : String) (v : α) (h : k' ≠ k) :
    lookupD (setD d k v) k' = lookupD d k' := by
  have hkk : ¬ k = k' := fun hh => h hh.symm
  induction d with
  | nil => simp [setD, lookupD, hkk]
  | cons p rest ih =>
      by_cases hp : p.1 = k
      · subst hp
        simp [setD, lookupD, hkk]
      · by_cases hp' : p.1 = k'
        · simp [setD, hp, lookupD, hp', h]
        · simp [setD, hp, lookupD, hp', ih]

lemma setD_lookup_self {α : Type} (d : List (String × α)) (k : String)
    (v : α) (h : lookupD d k = some v) : setD d k v = d := by
  induction d with
  | nil => simp [lookupD] at h
  | cons p rest ih =>
      by_cases hp : p.1 = k
      · subst hp
        simp [lookupD] at h
        simp [setD, ← h, Prod.mk.eta]
      · simp [lookupD, hp] at h
        simp [setD, hp, ih h]

lemma lookupD_eq_none_of_not_mem_keys {α : Type} (d : List (String × α))
    (k : String) (h : k ∉ d.map Prod.fst) : lookupD d k = none := by
  induction d with
  | nil => rfl
  | cons p rest ih =>
      simp only [List.map_cons, List.mem_cons] at h
      push_neg at h
      have hne : ¬ p.1 = k := fun hh => h.1 hh.symm
      simp [lookupD, hne, ih h.2]

lemma lookupD_filter_nodup {α : Type} (P : String × α → Bool)
    (d : List (String × α)) (hn : (d.map Prod.fst).Nodup) (k : String) :
    lookupD (d.filter P) k
      = match lookupD d k with
        | some v => if P (k, v) then some v else none
        | none => none := by
  induction d with
  | nil => simp [lookupD]
  | cons p rest ih =>
      simp only [List.map_cons, List.nodup_cons] at hn
      by_cases hk : p.1 = k
      · subst hk
        by_cases hP : P p
        · simp [List.filter, hP, lookupD, Prod.mk.eta]
        · have hrest : lookupD rest p.1 = none :=
            lookupD_eq_none_of_not_mem_keys rest p.1 hn.1
          simp [List.filter, hP, lookupD, ih hn.2, hrest, Prod.mk.eta]
      · by_cases hP : P p
        · simp [List.filter, hP, lookupD, hk, ih hn.2]
        · simp [List.filter, hP, lookupD, hk, ih hn.2]

lemma resolve_config_lookup (repo_deploy repo_local item_deploy item_local :
    JDict) (k : String) :
    lookupD (resolve_config repo_deploy repo_local item_deploy item_local) k
      = firstSome (lookupD item_local k) (firstSome (lookupD item_deploy k)
          (firstSome (lookupD repo_local k) (firstSome (lookupD repo_deploy k)
            (lookupD DEFAULTS k)))) := by
  unfold resolve_config
  rw [lookupD_mergeD, lookupD_mergeD, lookupD_mergeD, lookupD_mergeD]

/-- C3: for every key, `resolve_config` returns the value of the
highest-precedence (latest) of the five layers (defaults, repo
deploy.json, repo deploy.local.json, item deploy.json, item
deploy.local.json) that defines it, with no recursive merging of nested
objects: when two layers bind the same key to objects, the later
layer's object fully replaces the earlier one's. -/
theorem resolve_config_precedence :
    (∀ (repo_deploy repo_local item_deploy item_local : JDict) (k : String),
      lookupD (resolve_config repo_deploy repo_local item_deploy item_local) k
        = firstSome (lookupD item_local k) (firstSome (lookupD item_deploy k)
            (firstSome (lookupD repo_local k)
              (firstSome (lookupD repo_deploy k) (lookupD DEFAULTS k)))))
    ∧ (∀ (repo_deploy repo_local item_deploy item_local : JDict) (k : String)
        (o₁ o₂ : JDict),
        lookupD item_deploy k = some (JVal.obj o₁) →
        lookupD item_local k = some (JVal.obj o₂) →
        lookupD (resolve_config repo_deploy repo_local item_deploy item_local)
          k = some (JVal.obj o₂)) := by
  constructor
  · exact resolve_config_lookup
  · intro r2 r3 i4 i5 k o₁ o₂ h₄ h₅
    rw [resolve_config_lookup, h₅]
    rfl

/-- Witness for C3 at a concrete input: the item-level
`deploy.local.json` layer's `permissions` object wholly replaces the
item-level `deploy.json` layer's. -/
theorem resolve_config_precedence_witness :
    lookupD [("permissions", JVal.obj [])] "permissions"
        = some (JVal.obj [])
    ∧ lookupD [("permissions", JVal.obj [("allow", JVal.arr [])])]
        "permissions" = some (JVal.obj [("allow", JVal.arr [])])
    ∧ lookupD (resolve_config [] [] [("permissions", JVal.obj [])]
        [("permissions", JVal.obj [("allow", JVal.arr [])])]) "permissions"
      = some (JVal.obj [("allow", JVal.arr [])]) :=
  ⟨rfl, rfl,
    resolve_config_precedence.2 [] [] [("permissions", JVal.obj [])]
      [("permissions", JVal.obj [("allow", JVal.arr [])])] "permissions"
      [] [("allow", JVal.arr [])] rfl rfl⟩

/-- C8: `load_json` never fails — a missing or unparsable JSON source
is treated as the empty object, a parsed one is returned as-is — and
config resolution consequently always succeeds, with each failed layer
contributing nothing to the merge (replacing it by an explicitly empty
layer changes nothing, and with every layer failed the resolved config
is exactly the hardcoded defaults). -/
theorem load_json_never_fails :
    load_json ReadResult.missing = []
    ∧ load_json ReadResult.malformed = []
    ∧ (∀ d : JDict, load_json (ReadResult.ok d) = d)
    ∧ (∀ r3 i4 i5 : ReadResult,
        resolve_config_files ReadResult.malformed r3 i4 i5
          = resolve_config_files (ReadResult.ok []) r3 i4 i5
        ∧ resolve_config_files ReadResult.missing r3 i4 i5
          = resolve_config_files (ReadResult.ok []) r3 i4 i5)
    ∧ (∀ r2 i4 i5 : ReadResult,
        resolve_config_files r2 ReadResult.malformed i4 i5
          = resolve_config_files r2 (ReadResult.ok []) i4 i5
        ∧ resolve_config_files r2 ReadResult.missing i4 i5
          = resolve_config_files r2 (ReadResult.ok []) i4 i5)
    ∧ (∀ r2 r3 i5 : ReadResult,
        resolve_config_files r2 r3 ReadResult.malformed i5
          = resolve_config_files r2 r3 (ReadResult.ok []) i5
        ∧ resolve_config_files r2 r3 ReadResult.missing i5
          = resolve_config_files r2 r3 (ReadResult.ok []) i5)
    ∧ (∀ r2 r3 i4 : ReadResult,
        resolve_config_files r2 r3 i4 ReadResult.malformed
          = resolve_config_files r2 r3 i4 (ReadResult.ok [])
        ∧ resolve_config_files r2 r3 i4 ReadResult.missing
          = resolve_config_files r2 r3 i4 (ReadResult.ok []))
    ∧ resolve_config_files ReadResult.missing ReadResult.malformed
        ReadResult.missing ReadResult.malformed = DEFAULTS := by
  refine ⟨rfl, rfl, fun d => rfl, fun r3 i4 i5 => ⟨rfl, rfl⟩,
    fun r2 i4 i5 => ⟨rfl, rfl⟩, fun r2 r3 i5 => ⟨rfl, rfl⟩,
    fun r2 r3 i4 => ⟨rfl, rfl⟩, ?_⟩
  rfl

lemma profileKeyAllowed_iff (k : String) (v : JVal) :
    profileKeyAllowed (k, v) = true
    ↔ ((k = "enabled" ∨ k = "on_path") ∧ v ≠ JVal.null) := by
  cases v <;> simp [profileKeyAllowed]

/-- C4: the profile overlay is the identity for an empty profile
document; an item whose name is not listed under its kind comes back
with `enabled` forced to `false` and every other key untouched; a
listed item receives exactly the non-null `enabled`/`on_path` values of
its profile entry, every other profile-entry key having no effect. -/
theorem apply_profile_overrides_spec :
    (∀ (config : JDict) (t n : String),
      apply_profile_overrides config [] t n = config)
    ∧ (∀ (config : JDict) (profile : ProfileDoc) (t n : String),
        profile ≠ [] →
        lookupD (profileItems profile t) n = none →
        lookupD (apply_profile_overrides config profile t n) "enabled"
            = some (JVal.bool false)
        ∧ (∀ k : String, k ≠ "enabled" →
            lookupD (apply_profile_overrides config profile t n) k
              = lookupD config k))
    ∧ (∀ (config : JDict) (profile : ProfileDoc) (t n : String)
        (entry : JDict),
        profile ≠ [] →
        lookupD (profileItems profile t) n = some entry →
        (entry.map Prod.fst).Nodup →
        ∀ k : String,
          lookupD (apply_profile_overrides config profile t n) k
            = match lookupD entry k with
              | some v =>
                  if (k = "enabled" ∨ k = "on_path") ∧ v ≠ JVal.null
                  then some v
                  else lookupD config k
              | none => lookupD config k) := by
  refine ⟨fun config t n => rfl, ?_, ?_⟩
  · intro config profile t n hne hmiss
    cases profile with
    | nil => exact absurd rfl hne
    | cons p ps =>
        have hres : apply_profile_overrides config (p :: ps) t n
            = mergeD config [("enabled", JVal.bool false)] := by
          simp only [apply_profile_overrides]
          rw [hmiss]
        constructor
        · rw [hres, lookupD_mergeD]
          rfl
        · intro k hk
          have hk' : ¬ ("enabled" = k) := fun hh => hk hh.symm
          rw [hres, lookupD_mergeD]
          simp [lookupD, hk', firstSome]
  · intro config profile t n entry hne hfound hnodup k
    cases profile with
    | nil => exact absurd rfl hne
    | cons p ps =>
        have hres : apply_profile_overrides config (p :: ps) t n
            = mergeD config (entry.filter profileKeyAllowed) := by
          simp only [apply_profile_overrides]
          rw [hfound]
        rw [hres, lookupD_mergeD,
          lookupD_filter_nodup _ entry hnodup k]
        cases hv : lookupD entry k with
        | none => rfl
        | some v =>
            by_cases hc : (k = "enabled" ∨ k = "on_path") ∧ v ≠ JVal.null
            · have hP := (profileKeyAllowed_iff k v).mpr hc
              simp [hP, firstSome, hc]
            · have hP : profileKeyAllowed (k, v) = false :=
                Bool.eq_false_iff.mpr
                  (fun hb => hc ((profileKeyAllowed_iff k v).mp hb))
              simp [hP, firstSome, hc]

/-- Witness for C4 at concrete inputs: a profile listing the item
merges its non-null `enabled` and drops its `scope`; a profile not
listing the item disables it. -/
theorem apply_profile_overrides_spec_witness :
    (([("skills", [("alpha",
        [("enabled", JVal.bool false), ("scope", JVal.str "project")])])] :
        ProfileDoc) ≠ [])
    ∧ lookupD (profileItems
        [("skills", [("alpha",
          [("enabled", JVal.bool false), ("scope", JVal.str "project")])])]
        "skills") "alpha"
        = some [("enabled", JVal.bool false), ("scope", JVal.str "project")]
    ∧ lookupD (profileItems
        [("skills", [("alpha",
          [("enabled", JVal.bool false), ("scope", JVal.str "project")])])]
        "skills") "beta" = none
    ∧ (∀ k : String,
        lookupD (apply_profile_overrides [("enabled", JVal.bool true)]
          [("skills", [("alpha",
            [("enabled", JVal.bool false), ("scope", JVal.str "project")])])]
          "skills" "alpha") k
          = match lookupD [("enabled", JVal.bool false),
              ("scope", JVal.str "project")] k with
            | some v =>
                if (k = "enabled" ∨ k = "on_path") ∧ v ≠ JVal.null
                then some v
                else lookupD [("enabled", JVal.bool true)] k
            | none => lookupD [("enabled", JVal.bool true)] k)
    ∧ lookupD (apply_profile_overrides [("enabled", JVal.bool true)]
        [("skills", [("alpha",
          [("enabled", JVal.bool false), ("scope", JVal.str "project")])])]
        "skills" "beta") "enabled" = some (JVal.bool false) :=
  ⟨List.cons_ne_nil _ _, rfl, rfl,
    apply_profile_overrides_spec.2.2 [("enabled", JVal.bool true)]
      [("skills", [("alpha",
        [("enabled", JVal.bool false), ("scope", JVal.str "project")])])]
      "skills" "alpha"
      [("enabled", JVal.bool false), ("scope", JVal.str "project")]
      (List.cons_ne_nil _ _) rfl (by simp),
    (apply_profile_overrides_spec.2.1 [("enabled", JVal.bool true)]
      [("skills", [("alpha",
        [("enabled", JVal.bool false), ("scope", JVal.str "project")])])]
      "skills" "beta" (List.cons_ne_nil _ _) rfl).1⟩

/-! ## Permission sort lemmas -/

lemma mem_sortedPerms {a : String} {l : List String} :
    a ∈ sortedPerms l ↔ a ∈ l :=
  (List.perm_insertionSort permLe l).mem_iff

lemma sortedPerms_sorted (l : List String) :
    List.Sorted permLe (sortedPerms l) :=
  List.sorted_insertionSort permLe l

lemma sortedPerms_nodup {l : List String} (h : l.Nodup) :
    (sortedPerms l).Nodup :=
  (List.perm_insertionSort permLe l).nodup_iff.mpr h

lemma sortedPerms_eq_of_mem_iff {l₁ l₂ : List String} (h₁ : l₁.Nodup)
    (h₂ : l₂.Nodup) (h : ∀ a, a ∈ l₁ ↔ a ∈ l₂) :
    sortedPerms l₁ = sortedPerms l₂ := by
  refine List.eq_of_perm_of_sorted ?_ (sortedPerms_sorted l₁)
    (sortedPerms_sorted l₂)
  exact ((List.perm_insertionSort permLe l₁).trans
    ((List.perm_ext_iff_of_nodup h₁ h₂).mpr h)).trans
    (List.perm_insertionSort permLe l₂).symm

lemma mem_mergePermLists {x : String} {e n : List String} :
    x ∈ mergePermLists e n ↔ x ∈ e ∨ x ∈ n := by
  simp [mergePermLists, mem_sortedPerms, List.mem_dedup]

lemma mergePermLists_nodup (e n : List String) :
    (mergePermLists e n).Nodup :=
  sortedPerms_nodup (List.nodup_dedup _)

lemma mergePermLists_idem (e n : List String) :
    mergePermLists (mergePermLists e n) n = mergePermLists e n := by
  show sortedPerms ((mergePermLists e n ++ n).dedup)
      = sortedPerms ((e ++ n).dedup)
  apply sortedPerms_eq_of_mem_iff (List.nodup_dedup _) (List.nodup_dedup _)
  intro a
  simp only [List.mem_dedup, List.mem_append, mem_mergePermLists]
  tauto

/-! ## Sorted-position lemmas -/

lemma posIdx_pos_of_ne {l : List String} {x b : String} (hb : b ∈ x :: l)
    (hne : b ≠ x) : 0 < posIdx (x :: l) b := by
  have hx : ¬ x = b := fun hh => hne hh.symm
  simp [posIdx, hx]

lemma posIdx_lt_of_permLt : ∀ (l : List String), List.Sorted permLe l →
    l.Nodup → ∀ a b, a ∈ l → b ∈ l → permLt a b →
    posIdx l a < posIdx l b := by
  intro l
  induction l with
  | nil => intro _ _ a b ha; simp at ha
  | cons x xs ih =>
      intro hs hn a b ha hb hab
      rw [List.sorted_cons] at hs
      rw [List.nodup_cons] at hn
      by_cases hax : a = x
      · subst hax
        have hbx : b ≠ a := fun hh => hab.2 hh.symm
        have h0 : ¬ a = b := fun hh => hab.2 hh
        calc posIdx (a :: xs) a = 0 := by simp [posIdx]
          _ < posIdx (a :: xs) b := posIdx_pos_of_ne hb hbx
      · have hax' : ¬ x = a := fun hh => hax hh.symm
        have hamem : a ∈ xs := by
          rcases List.mem_cons.mp ha with h | h
          · exact absurd h hax
          · exact h
        by_cases hbx : b = x
        · subst hbx
          have hba : permLe b a := hs.1 a hamem
          exact absurd (antisymm hab.1 hba) hab.2
        · have hbx' : ¬ x = b := fun hh => hbx hh.symm
          have hbmem : b ∈ xs := by
            rcases List.mem_cons.mp hb with h | h
            · exact absurd h hbx
            · exact h
          have := ih hs.2 hn.2 a b hamem hbmem hab
          simp [posIdx, hax', hbx']
          omega

lemma posIdx_lt_iff_permLt {l : List String} (hs : List.Sorted permLe l)
    (hn : l.Nodup) {a b : String} (ha : a ∈ l) (hb : b ∈ l)
    (hab : a ≠ b) : posIdx l a < posIdx l b ↔ permLt a b := by
  constructor
  · intro h
    rcases IsTotal.total (r := permLe) a b with hle | hle
    · exact ⟨hle, hab⟩
    · exfalso
      have : posIdx l b < posIdx l a :=
        posIdx_lt_of_permLt l hs hn b a hb ha ⟨hle, fun hh => hab hh.symm⟩
      omega
  · exact posIdx_lt_of_permLt l hs hn a b ha hb

/-! ## Permission group order lemmas -/

lemma permGroup_mem_groupOrderList (e : String) :
    permGroup e ∈ groupOrderList := by
  unfold permGroup _permission_sort_key
  cases hf : _PERMISSION_GROUPS.find? (fun pg => strStartsWith e pg.1) with
  | none =>
      show "99-other" ∈ groupOrderList
      decide
  | some pg =>
      have hmem : pg ∈ _PERMISSION_GROUPS := List.mem_of_find?_eq_some hf
      have hall : ∀ q ∈ _PERMISSION_GROUPS, q.2 ∈ groupOrderList := by decide
      exact hall pg hmem

lemma groupLabel_lt_iff_pos :
    ∀ g₁ ∈ groupOrderList, ∀ g₂ ∈ groupOrderList,
    (strLt g₁ g₂ ↔ posIdx groupOrderList g₁ < posIdx groupOrderList g₂) := by
  decide

lemma permLt_iff_group_lt {a b : String} (hg : permGroup a ≠ permGroup b) :
    permLt a b ↔ strLt (permGroup a) (permGroup b) := by
  constructor
  · intro h
    rcases h.1 with h' | h'
    · exact h'
    · exact absurd h'.1 hg
  · intro h
    refine ⟨Or.inl h, ?_⟩
    intro hh
    subst hh
    exact hg rfl

lemma permLt_iff_strLt_of_group_eq {a b : String} (hab : a ≠ b)
    (hg : permGroup a = permGroup b) : permLt a b ↔ strLt a b := by
  constructor
  · intro h
    rcases h.1 with h' | h'
    · exact absurd h' (hg ▸ strLt_irrefl _)
    · rcases h'.2 with h'' | h''
      · exact h''
      · exact absurd h'' h.2
  · intro h
    exact ⟨Or.inr ⟨hg, Or.inl h⟩, hab⟩

/-! ## Hooks merge lemmas -/

lemma mergeMatcherGroups_cons (ex : List MatcherGroup) (g : MatcherGroup)
    (gs : List MatcherGroup) :
    mergeMatcherGroups ex (g :: gs)
      = mergeMatcherGroups
          (if ex.any (fun g2 => decide (g2.matcher = g.matcher)) then ex
           else ex ++ [g]) gs := rfl

lemma mergeMatcherGroups_extends (gs : List MatcherGroup) :
    ∀ ex : List MatcherGroup, ∃ extra,
    mergeMatcherGroups ex gs = ex ++ extra := by
  induction gs with
  | nil => intro ex; exact ⟨[], by simp [mergeMatcherGroups]⟩
  | cons g gs ih =>
      intro ex
      rw [mergeMatcherGroups_cons]
      by_cases h : ex.any (fun g2 => decide (g2.matcher = g.matcher))
      · rw [if_pos h]; exact ih ex
      · rw [if_neg h]
        obtain ⟨extra, hx⟩ := ih (ex ++ [g])
        exact ⟨g :: extra, by rw [hx, List.append_assoc]; rfl⟩

lemma mem_mergeMatcherGroups_of_mem {g2 : MatcherGroup}
    {ex : List MatcherGroup} (gs : List MatcherGroup) (h : g2 ∈ ex) :
    g2 ∈ mergeMatcherGroups ex gs := by
  obtain ⟨extra, hx⟩ := mergeMatcherGroups_extends gs ex
  rw [hx]
  exact List.mem_append_left _ h

lemma matcher_present_mergeMatcherGroups (gs : List MatcherGroup) :
    ∀ (ex : List MatcherGroup) (g : MatcherGroup), g ∈ gs →
    ∃ g2 ∈ mergeMatcherGroups ex gs, g2.matcher = g.matcher := by
  induction gs with
  | nil => intro ex g h; simp at h
  | cons q qs ih =>
      intro ex g h
      rw [mergeMatcherGroups_cons]
      rcases List.mem_cons.mp h with hq | hq
      · subst hq
        by_cases ha : ex.any (fun g2 => decide (g2.matcher = g.matcher))
        · rw [if_pos ha]
          obtain ⟨g2, hg2, hm⟩ := List.any_eq_true.mp ha
          exact ⟨g2, mem_mergeMatcherGroups_of_mem qs hg2,
            of_decide_eq_true hm⟩
        · rw [if_neg ha]
          exact ⟨g, mem_mergeMatcherGroups_of_mem qs
            (List.mem_append_right _ (List.mem_singleton.mpr rfl)), rfl⟩
      · by_cases ha : ex.any (fun g2 => decide (g2.matcher = q.matcher))
        · rw [if_pos ha]; exact ih ex g hq
        · rw [if_neg ha]; exact ih (ex ++ [q]) g hq

lemma mergeMatcherGroups_eq_self (gs : List MatcherGroup)
    (ex : List MatcherGroup)
    (h : ∀ g ∈ gs, ∃ g2 ∈ ex, g2.matcher = g.matcher) :
    mergeMatcherGroups ex gs = ex := by
  induction gs with
  | nil => rfl
  | cons q qs ih =>
      rw [mergeMatcherGroups_cons]
      obtain ⟨g2, hg2, hm⟩ := h q (List.mem_cons_self q qs)
      have ha : ex.any (fun g2 => decide (g2.matcher = q.matcher)) = true :=
        List.any_eq_true.mpr ⟨g2, hg2, decide_eq_true hm⟩
      rw [if_pos ha]
      exact ih (fun g hg => h g (List.mem_cons_of_mem q hg))

lemma mergeMatcherGroups_idem (ex gs : List MatcherGroup) :
    mergeMatcherGroups (mergeMatcherGroups ex gs) gs
      = mergeMatcherGroups ex gs :=
  mergeMatcherGroups_eq_self gs _
    (fun g hg => matcher_present_mergeMatcherGroups gs ex g hg)

lemma update_settings_hooks_merge_cons (E : HooksDict)
    (p : String × List MatcherGroup) (N : HooksDict) :
    update_settings_hooks_merge E (p :: N)
      = update_settings_hooks_merge
          (setD E p.1 (mergeMatcherGroups
            (match lookupD E p.1 with
             | some gs => gs
             | none => []) p.2)) N := rfl

lemma lookup_hooks_merge_extends (N : HooksDict) :
    ∀ (E : HooksDict) (e : String) (gs : List MatcherGroup),
    lookupD E e = some gs →
    ∃ extra, lookupD (update_settings_hooks_merge E N) e
      = some (gs ++ extra) := by
  induction N with
  | nil =>
      intro E e gs h
      exact ⟨[], by simpa [update_settings_hooks_merge] using h⟩
  | cons p N ih =>
      intro E e gs h
      rw [update_settings_hooks_merge_cons]
      by_cases hpe : p.1 = e
      · subst hpe
        rw [h]
        obtain ⟨e1, he1⟩ := mergeMatcherGroups_extends p.2 gs
        obtain ⟨e2, he2⟩ := ih _ p.1 (gs ++ e1)
          (by rw [← he1]; exact lookupD_setD_self E p.1 _)
        exact ⟨e1 ++ e2, by rw [he2, List.append_assoc]⟩
      · have : lookupD (setD E p.1 (mergeMatcherGroups
            (match lookupD E p.1 with
             | some gs => gs
             | none => []) p.2)) e = some gs := by
          rw [lookupD_setD_other _ _ _ _ (fun hh => hpe hh.symm)]
          exact h
        exact ih _ e gs this

lemma hooks_merge_keys_complete (N : HooksDict) :
    ∀ (E : HooksDict) (p : String × List MatcherGroup), p ∈ N →
    ∃ gs, lookupD (update_settings_hooks_merge E N) p.1 = some gs
      ∧ ∀ g ∈ p.2, ∃ g2 ∈ gs, g2.matcher = g.matcher := by
  induction N with
  | nil => intro E p h; simp at h
  | cons q N ih =>
      intro E p h
      rw [update_settings_hooks_merge_cons]
      rcases List.mem_cons.mp h with hq | hq
      · subst hq
        set M := mergeMatcherGroups
          (match lookupD E p.1 with
           | some gs => gs
           | none => []) p.2 with hM
        have hself : lookupD (setD E p.1 M) p.1 = some M :=
          lookupD_setD_self E p.1 M
        obtain ⟨extra, hx⟩ := lookup_hooks_merge_extends N _ p.1 M hself
        refine ⟨M ++ extra, hx, ?_⟩
        intro g hg
        obtain ⟨g2, hg2, hm⟩ := matcher_present_mergeMatcherGroups p.2
          (match lookupD E p.1 with
           | some gs => gs
           | none => []) g hg
        exact ⟨g2, List.mem_append_left _ hg2, hm⟩
      · exact ih _ p hq

lemma hooks_merge_fix (N : HooksDict) :
    ∀ M : HooksDict,
    (∀ p ∈ N, ∃ gs, lookupD M p.1 = some gs
      ∧ ∀ g ∈ p.2, ∃ g2 ∈ gs, g2.matcher = g.matcher) →
    update_settings_hooks_merge M N = M := by
  induction N with
  | nil => intro M _; rfl
  | cons q N ih =>
      intro M h
      rw [update_settings_hooks_merge_cons]
      obtain ⟨gs, hgs, hall⟩ := h q (List.mem_cons_self q N)
      have hstep : setD M q.1 (mergeMatcherGroups
          (match lookupD M q.1 with
           | some gs => gs
           | none => []) q.2) = M := by
        rw [hgs]
        rw [mergeMatcherGroups_eq_self q.2 gs hall]
        exact setD_lookup_self M q.1 gs hgs
      rw [hstep]
      exact ih M (fun p hp => h p (List.mem_cons_of_mem q hp))

lemma update_settings_hooks_merge_idem (E N : HooksDict) :
    update_settings_hooks_merge (update_settings_hooks_merge E N) N
      = update_settings_hooks_merge E N :=
  hooks_merge_fix N _ (fun p hp => hooks_merge_keys_complete N E p hp)

/-! ## MCP merge lemmas -/

lemma update_settings_mcp_merge_cons (S : JDict) (p : String × JVal)
    (C : List (String × JVal)) :
    update_settings_mcp_merge S (p :: C)
      = update_settings_mcp_merge
          (if memD S p.1 then S else S ++ [p]) C := rfl

lemma mcp_merge_preserves (C : List (String × JVal)) :
    ∀ (S : JDict) (k : String) (v : JVal), lookupD S k = some v →
    lookupD (update_settings_mcp_merge S C) k = some v := by
  induction C with
  | nil => intro S k v h; exact h
  | cons p C ih =>
      intro S k v h
      rw [update_settings_mcp_merge_cons]
      by_cases hm : memD S p.1
      · rw [if_pos hm]; exact ih S k v h
      · rw [if_neg hm]
        refine ih _ k v ?_
        rw [lookupD_append, h]
        rfl

lemma mcp_merge_mem (C : List (String × JVal)) :
    ∀ (S : JDict) (p : String × JVal), p ∈ C →
    (lookupD (update_settings_mcp_merge S C) p.1).isSome := by
  induction C with
  | nil => intro S p h; simp at h
  | cons q C ih =>
      intro S p h
      rw [update_settings_mcp_merge_cons]
      rcases List.mem_cons.mp h with hq | hq
      · subst hq
        by_cases hm : memD S p.1
        · rw [if_pos hm]
          obtain ⟨v, hv⟩ := Option.isSome_iff_exists.mp hm
          rw [mcp_merge_preserves C S p.1 v hv]
          rfl
        · rw [if_neg hm]
          have hv : lookupD (S ++ [p]) p.1 = some p.2 := by
            rw [lookupD_append]
            have hS : lookupD S p.1 = none := by
              cases hS : lookupD S p.1 with
              | none => rfl
              | some v => exact absurd (by simp [memD, hS]) hm
            rw [hS]
            simp [lookupD, firstSome]
          rw [mcp_merge_preserves C _ p.1 p.2 hv]
          rfl
      · exact ih _ p hq

lemma mcp_merge_eq_self (C : List (String × JVal)) :
    ∀ S : JDict, (∀ p ∈ C, (lookupD S p.1).isSome) →
    update_settings_mcp_merge S C = S := by
  induction C with
  | nil => intro S _; rfl
  | cons q C ih =>
      intro S h
      rw [update_settings_mcp_merge_cons]
      have hm : memD S q.1 = true := h q (List.mem_cons_self q C)
      rw [if_pos hm]
      exact ih S (fun p hp => h p (List.mem_cons_of_mem q hp))

lemma update_settings_mcp_merge_idem (S : JDict)
    (C : List (String × JVal)) :
    update_settings_mcp_merge (update_settings_mcp_merge S C) C
      = update_settings_mcp_merge S C :=
  mcp_merge_eq_self C _ (fun p hp => mcp_merge_mem C S p hp)

/-- C1: applying each settings merger twice with identical inputs gives
the same settings section as applying it once — permissions
(union-then-grouped-sort of the same sets), hooks (every
(event, matcher) group already present, nothing appended), and MCP
(every server name already a key, nothing added). -/
theorem settings_merge_idempotent :
    (∀ (doc : PermissionsSection) (allows denies : List String),
      update_settings_permissions
        (update_settings_permissions doc allows denies) allows denies
        = update_settings_permissions doc allows denies)
    ∧ (∀ E N : HooksDict,
        update_settings_hooks_merge (update_settings_hooks_merge E N) N
          = update_settings_hooks_merge E N)
    ∧ (∀ (S : JDict) (C : List (String × JVal)),
        update_settings_mcp_merge (update_settings_mcp_merge S C) C
          = update_settings_mcp_merge S C) := by
  refine ⟨?_, update_settings_hooks_merge_idem,
    update_settings_mcp_merge_idem⟩
  intro doc allows denies
  simp [update_settings_permissions, mergePermLists_idem]

/-- C2: each merger preserves every pre-existing entry unchanged — an
extra allow/deny string stays in the merged arrays, an extra hook
event keeps its group list as a prefix of the merged list, an existing
MCP server keeps its exact definition even when the run supplies a
different one — while the run's new entries are added (new permission
strings appear, every new (event, matcher) pair is represented, every
new server name becomes a key). -/
theorem append_missing_preserves :
    (∀ (doc : PermissionsSection) (allows denies : List String)
      (x : String),
      (x ∈ doc.allow →
        x ∈ (update_settings_permissions doc allows denies).allow)
      ∧ (x ∈ allows →
        x ∈ (update_settings_permissions doc allows denies).allow)
      ∧ (x ∈ doc.deny →
        x ∈ (update_settings_permissions doc allows denies).deny)
      ∧ (x ∈ denies →
        x ∈ (update_settings_permissions doc allows denies).deny))
    ∧ (∀ (E N : HooksDict) (e : String) (gs : List MatcherGroup),
        lookupD E e = some gs →
        ∃ extra, lookupD (update_settings_hooks_merge E N) e
          = some (gs ++ extra))
    ∧ (∀ (E N : HooksDict) (p : String × List MatcherGroup), p ∈ N →
        ∃ gs, lookupD (update_settings_hooks_merge E N) p.1 = some gs
          ∧ ∀ g ∈ p.2, ∃ g2 ∈ gs, g2.matcher = g.matcher)
    ∧ (∀ (S : JDict) (C : List (String × JVal)) (n : String) (v : JVal),
        lookupD S n = some v →
        lookupD (update_settings_mcp_merge S C) n = some v)
    ∧ (∀ (S : JDict) (C : List (String × JVal)) (p : String × JVal),
        p ∈ C →
        (lookupD (update_settings_mcp_merge S C) p.1).isSome) := by
  refine ⟨?_, fun E N e gs h => lookup_hooks_merge_extends N E e gs h,
    fun E N p h => hooks_merge_keys_complete N E p h,
    fun S C n v h => mcp_merge_preserves C S n v h,
    fun S C p h => mcp_merge_mem C S p h⟩
  intro doc allows denies x
  refine ⟨fun h => ?_, fun h => ?_, fun h => ?_, fun h => ?_⟩
  · exact mem_mergePermLists.mpr (Or.inl h)
  · exact mem_mergePermLists.mpr (Or.inr h)
  · exact mem_mergePermLists.mpr (Or.inl h)
  · exact mem_mergePermLists.mpr (Or.inr h)

/-- Witness for C2 at concrete inputs: a hand-added allow entry
survives the permissions merge; a hand-added hook event keeps its group
list; an existing MCP server named by the run keeps its old
definition. -/
theorem append_missing_preserves_witness :
    ("ManualEntry" ∈ (["ManualEntry"] : List String))
    ∧ "ManualEntry" ∈ (update_settings_permissions
        ⟨["ManualEntry"], []⟩ ["Bash(git status)"] []).allow
    ∧ lookupD ([("Stop", [MatcherGroup.mk none []])] : HooksDict) "Stop"
        = some [MatcherGroup.mk none []]
    ∧ (∃ extra, lookupD (update_settings_hooks_merge
        [("Stop", [MatcherGroup.mk none []])]
        [("PreToolUse", [MatcherGroup.mk (some "Bash") []])]) "Stop"
        = some ([MatcherGroup.mk none []] ++ extra))
    ∧ lookupD ([("srv", JVal.str "old")] : JDict) "srv"
        = some (JVal.str "old")
    ∧ lookupD (update_settings_mcp_merge [("srv", JVal.str "old")]
        [("srv", JVal.str "new")]) "srv" = some (JVal.str "old") :=
  ⟨by decide,
    (append_missing_preserves.1 ⟨["ManualEntry"], []⟩
      ["Bash(git status)"] [] "ManualEntry").1 (by decide),
    rfl,
    append_missing_preserves.2.1
      [("Stop", [MatcherGroup.mk none []])]
      [("PreToolUse", [MatcherGroup.mk (some "Bash") []])]
      "Stop" [MatcherGroup.mk none []] rfl,
    rfl,
    append_missing_preserves.2.2.2.1 [("srv", JVal.str "old")]
      [("srv", JVal.str "new")] "srv" (JVal.str "old") rfl⟩

/-- C6: the hooks merger appends a new matcher group under an event iff
no group already present there has an equal matcher value; when one
does, the existing group is left exactly as it was (the existing list
is always a prefix of the result, so no entries are added inside an
existing group).  Concretely, a second hook for an already-present
event+matcher pair changes nothing, while a hook for a new matcher
under the same event appends a second group. -/
theorem hooks_append_rule :
    (∀ (ex : List MatcherGroup) (g : MatcherGroup),
      mergeMatcherGroups ex [g]
        = if ∃ g2 ∈ ex, g2.matcher = g.matcher then ex else ex ++ [g])
    ∧ (∀ (ex gs : List MatcherGroup), ∃ extra,
        mergeMatcherGroups ex gs = ex ++ extra)
    ∧ (∀ hs hs' : List HookEntry,
        mergeMatcherGroups [MatcherGroup.mk (some "Bash") hs]
          [MatcherGroup.mk (some "Bash") hs']
          = [MatcherGroup.mk (some "Bash") hs]
        ∧ mergeMatcherGroups [MatcherGroup.mk (some "Bash") hs]
            [MatcherGroup.mk (some "Edit") hs']
          = [MatcherGroup.mk (some "Bash") hs,
             MatcherGroup.mk (some "Edit") hs']
        ∧ update_settings_hooks_merge
            [("PreToolUse", [MatcherGroup.mk (some "Bash") hs])]
            [("PreToolUse", [MatcherGroup.mk (some "Bash") hs'])]
          = [("PreToolUse", [MatcherGroup.mk (some "Bash") hs])]
        ∧ update_settings_hooks_merge
            [("PreToolUse", [MatcherGroup.mk (some "Bash") hs])]
            [("PreToolUse", [MatcherGroup.mk (some "Edit") hs'])]
          = [("PreToolUse", [MatcherGroup.mk (some "Bash") hs,
              MatcherGroup.mk (some "Edit") hs'])]) := by
  refine ⟨?_, fun ex gs => mergeMatcherGroups_extends gs ex, ?_⟩
  · intro ex g
    by_cases h : ∃ g2 ∈ ex, g2.matcher = g.matcher
    · rw [if_pos h]
      obtain ⟨g2, hg2, hm⟩ := h
      have ha : ex.any (fun g2 => decide (g2.matcher = g.matcher)) = true :=
        List.any_eq_true.mpr ⟨g2, hg2, decide_eq_true hm⟩
      show (if ex.any (fun g2 => decide (g2.matcher = g.matcher)) then ex
        else ex ++ [g]) = ex
      rw [if_pos ha]
    · rw [if_neg h]
      have ha : ¬ (ex.any (fun g2 => decide (g2.matcher = g.matcher))
          = true) := by
        intro hh
        obtain ⟨g2, hg2, hm⟩ := List.any_eq_true.mp hh
        exact h ⟨g2, hg2, of_decide_eq_true hm⟩
      show (if ex.any (fun g2 => decide (g2.matcher = g.matcher)) then ex
        else ex ++ [g]) = ex ++ [g]
      rw [if_neg ha]
  · intro hs hs'
    refine ⟨rfl, rfl, rfl, rfl⟩

/-- C7: the permission sort is a total, deterministic order.  In the
sorted output of any input set, two entries with different computed
groups appear in the fixed group-list order regardless of their
lexicographic relation; entries of the same group (including the final
catch-all group for strings matching no prefix) appear in lexicographic
order; the same input set always yields the same output list; and
concretely `Bash(git status)` (group 03-git) always precedes
`Bash(docker ps)` (group 04-docker). -/
theorem permission_sort_grouped_total :
    (∀ (l : List String) (a b : String),
      a ∈ sortedPerms l.dedup → b ∈ sortedPerms l.dedup →
      permGroup a ≠ permGroup b →
      (posIdx (sortedPerms l.dedup) a < posIdx (sortedPerms l.dedup) b
        ↔ posIdx groupOrderList (permGroup a)
            < posIdx groupOrderList (permGroup b)))
    ∧ (∀ (l : List String) (a b : String),
        a ∈ sortedPerms l.dedup → b ∈ sortedPerms l.dedup →
        a ≠ b → permGroup a = permGroup b →
        (posIdx (sortedPerms l.dedup) a < posIdx (sortedPerms l.dedup) b
          ↔ strLt a b))
    ∧ (∀ e : String,
        _PERMISSION_GROUPS.find? (fun pg => strStartsWith e pg.1) = none →
        permGroup e = "99-other")
    ∧ (∀ l₁ l₂ : List String, (∀ x, x ∈ l₁ ↔ x ∈ l₂) →
        sortedPerms l₁.dedup = sortedPerms l₂.dedup)
    ∧ permGroup "Bash(git status)" = "03-git"
    ∧ permGroup "Bash(docker ps)" = "04-docker"
    ∧ sortedPerms (["Bash(docker ps)", "Bash(git status)"].dedup)
        = ["Bash(git status)", "Bash(docker ps)"] := by
  refine ⟨?_, ?_, ?_, ?_, by decide, by decide, by decide⟩
  · intro l a b ha hb hg
    have hs := sortedPerms_sorted l.dedup
    have hn := sortedPerms_nodup (List.nodup_dedup l)
    have hab : a ≠ b := fun hh => hg (by rw [hh])
    rw [posIdx_lt_iff_permLt hs hn ha hb hab, permLt_iff_group_lt hg]
    exact groupLabel_lt_iff_pos _ (permGroup_mem_groupOrderList a) _
      (permGroup_mem_groupOrderList b)
  · intro l a b ha hb hab hg
    have hs := sortedPerms_sorted l.dedup
    have hn := sortedPerms_nodup (List.nodup_dedup l)
    rw [posIdx_lt_iff_permLt hs hn ha hb hab,
      permLt_iff_strLt_of_group_eq hab hg]
  · intro e hf
    unfold permGroup _permission_sort_key
    rw [hf]
  · intro l₁ l₂ h
    apply sortedPerms_eq_of_mem_iff (List.nodup_dedup l₁)
      (List.nodup_dedup l₂)
    intro a
    rw [List.mem_dedup, List.mem_dedup]
    exact h a

/-- Witness for C7 at a concrete input: in the sorted output of
{Bash(docker ps), Bash(git status)}, the git entry precedes the docker
entry exactly because group 03-git precedes group 04-docker in the
fixed list, against their lexicographic order. -/
theorem permission_sort_grouped_total_witness :
    ("Bash(git status)"
        ∈ sortedPerms (["Bash(docker ps)", "Bash(git status)"].dedup))
    ∧ ("Bash(docker ps)"
        ∈ sortedPerms (["Bash(docker ps)", "Bash(git status)"].dedup))
    ∧ permGroup "Bash(git status)" ≠ permGroup "Bash(docker ps)"
    ∧ (posIdx (sortedPerms (["Bash(docker ps)", "Bash(git status)"].dedup))
          "Bash(git status)"
        < posIdx (sortedPerms (["Bash(docker ps)", "Bash(git status)"].dedup))
          "Bash(docker ps)"
        ↔ posIdx groupOrderList (permGroup "Bash(git status)")
            < posIdx groupOrderList (permGroup "Bash(docker ps)")) :=
  ⟨by decide, by decide, by decide,
    permission_sort_grouped_total.1 ["Bash(docker ps)", "Bash(git status)"]
      "Bash(git status)" "Bash(docker ps)" (by decide) (by decide)
      (by decide)⟩

/-! ## String append cancellation and drift lemmas -/

lemma strAppend_cancel_right {y n s : String} (h : y ++ s = n ++ s) :
    y = n := by
  apply String.ext
  have hd : (y ++ s).data = (n ++ s).data := by rw [h]
  rw [String.data_append, String.data_append] at hd
  exact List.append_cancel_right hd

lemma mem_sortedStrs {a : String} {l : List String} :
    a ∈ sortedStrs l ↔ a ∈ l :=
  (List.perm_insertionSort strLe l).mem_iff

lemma mem_drift_block {names seen : List String} {label n : String} :
    (n ++ " (" ++ label ++ ")") ∈ drift_block names seen label
      ↔ (n ∈ names ∧ n ∉ seen) := by
  unfold drift_block
  rw [List.mem_map]
  constructor
  · rintro ⟨y, hy, hmap⟩
    have hy' : y = n :=
      strAppend_cancel_right (strAppend_cancel_right
        (strAppend_cancel_right hmap))
    subst hy'
    rw [List.mem_filter, mem_sortedStrs, List.mem_dedup] at hy
    refine ⟨hy.1, ?_⟩
    have := hy.2
    simp only [Bool.not_eq_true', decide_eq_false_iff_not] at this
    exact this
  · rintro ⟨hmem, hnot⟩
    refine ⟨n, ?_, rfl⟩
    rw [List.mem_filter, mem_sortedStrs, List.mem_dedup]
    exact ⟨hmem, by simp [hnot]⟩

/-- C9: the stale-item computation returns, per kind, exactly the names
declared in the profile for that kind and absent from that kind's seen
list.  The result is the concatenation of four independent per-kind
blocks (skills, hooks, mcp, permissions), so there is no cross-kind
matching; the function is a pure function of its inputs; an empty (or
absent, loaded as empty) profile yields the empty stale list. -/
theorem check_profile_drift_spec :
    (∀ (seen_skills seen_hooks : List String)
      (m p : Option (List String)),
      check_profile_drift seen_skills seen_hooks [] m p = [])
    ∧ (∀ (seen_skills seen_hooks : List String)
        (q : String × List (String × JDict))
        (qs : ProfileDoc) (m p : Option (List String)),
        check_profile_drift seen_skills seen_hooks (q :: qs) m p
          = drift_block (keysOfKind (q :: qs) "skills") seen_skills "skills"
            ++ drift_block (keysOfKind (q :: qs) "hooks") seen_hooks "hooks"
            ++ drift_block (keysOfKind (q :: qs) "mcp") (m.getD []) "mcp"
            ++ drift_block (keysOfKind (q :: qs) "permissions")
                (p.getD []) "permissions")
    ∧ (∀ (names seen : List String) (label n : String),
        (n ++ " (" ++ label ++ ")") ∈ drift_block names seen label
          ↔ (n ∈ names ∧ n ∉ seen)) :=
  ⟨fun _ _ _ _ => rfl, fun _ _ _ _ _ _ => rfl,
    fun _ _ _ _ => mem_drift_block⟩

/-- C5 (spec-modelled: the deciding code, the hooks merger of
deploy-py/deploy.py, is not under src/ — only its tests are; modelled
from spec section 4.5): a `hooks_config` record without a matcher is
accepted and produces an (event, group) pair whose group has no
matcher, the absent matcher forming its own equality class in the
append rule; and a `hooks_config` given as a single record object or as
an array of record objects is accepted, the array contributing every
record. -/
theorem hooks_config_matcherless_and_array :
    (∀ (base name e cs : String) (a : Bool) (t : Option Int),
      buildMatcherGroup base name
        (HookRecord.mk (some e) none (some cs) a t)
        = some (e, MatcherGroup.mk none
            [HookEntry.mk "command" (base ++ "/" ++ name ++ "/" ++ cs)
              a t]))
    ∧ (∀ (base name : String) (r : HookRecord),
        buildGroupsFromSource base name (HooksConfigSource.one r)
          = buildGroupsFromSource base name (HooksConfigSource.many [r]))
    ∧ (∀ (base name : String) (rs : List HookRecord) (r : HookRecord),
        r ∈ rs → ∀ g, buildMatcherGroup base name r = some g →
        g ∈ buildGroupsFromSource base name (HooksConfigSource.many rs))
    ∧ (∀ hs hs' : List HookEntry,
        mergeMatcherGroups [MatcherGroup.mk none hs]
          [MatcherGroup.mk none hs'] = [MatcherGroup.mk none hs]
        ∧ mergeMatcherGroups [MatcherGroup.mk (some "Bash") hs]
            [MatcherGroup.mk none hs']
          = [MatcherGroup.mk (some "Bash") hs,
             MatcherGroup.mk none hs']) :=
  ⟨fun _ _ _ _ _ _ => rfl, fun _ _ _ => rfl,
    fun base name rs r hr g hg =>
      List.mem_filterMap.mpr ⟨r, hr, hg⟩,
    fun _ _ => ⟨rfl, rfl⟩⟩

/-- Witness for C5 at a concrete input: the notify-on-stop shape from
the repo's own tests — an array `hooks_config` of two matcherless
records — contributes its second (Stop) record as a matcherless
group. -/
theorem hooks_config_matcherless_and_array_witness :
    (HookRecord.mk (some "Stop") none (some "notify-on-stop.sh") true none
        ∈ [HookRecord.mk (some "UserPromptSubmit") none
            (some "notify-on-stop.sh") true none,
           HookRecord.mk (some "Stop") none
            (some "notify-on-stop.sh") true none])
    ∧ buildMatcherGroup "hooks" "notify-on-stop"
        (HookRecord.mk (some "Stop") none (some "notify-on-stop.sh")
          true none)
        = some ("Stop", MatcherGroup.mk none
            [HookEntry.mk "command" "hooks/notify-on-stop/notify-on-stop.sh"
              true none])
    ∧ ("Stop", MatcherGroup.mk none
        [HookEntry.mk "command" "hooks/notify-on-stop/notify-on-stop.sh"
          true none])
        ∈ buildGroupsFromSource "hooks" "notify-on-stop"
            (HooksConfigSource.many
              [HookRecord.mk (some "UserPromptSubmit") none
                (some "notify-on-stop.sh") true none,
               HookRecord.mk (some "Stop") none
                (some "notify-on-stop.sh") true none]) :=
  ⟨by decide, by decide,
    hooks_config_matcherless_and_array.2.2.1 "hooks" "notify-on-stop"
      [HookRecord.mk (some "UserPromptSubmit") none
        (some "notify-on-stop.sh") true none,
       HookRecord.mk (some "Stop") none
        (some "notify-on-stop.sh") true none]
      (HookRecord.mk (some "Stop") none (some "notify-on-stop.sh")
        true none)
      (by decide) _ (by decide)⟩

/-! ## Removal lemmas -/

lemma remove_fold_no_hit (names : List String) :
    ∀ S : JDict, (∀ n ∈ names, lookupD S n = none) →
    names.foldl (fun (st : JDict × List String) n =>
      if memD st.1 n then (removeKeyD st.1 n, st.2 ++ [n]) else st)
      (S, []) = (S, []) := by
  induction names with
  | nil => intro S _; rfl
  | cons q qs ih =>
      intro S h
      rw [List.foldl_cons]
      have hm : memD S q = false := by
        simp [memD, h q (List.mem_cons_self q qs)]
      rw [if_neg (by simp [hm])]
      exact ih S (fun n hn => h n (List.mem_cons_of_mem q hn))

lemma remove_settings_mcp_none_of_absent (doc : JDict)
    (names : List String) (dr : Bool)
    (h : ∀ n ∈ names, lookupD (serversOf doc) n = none) :
    remove_settings_mcp doc names dr = none := by
  cases names with
  | nil => rfl
  | cons q qs =>
      cases dr with
      | true => rfl
      | false =>
          show (match ((q :: qs).foldl
              (fun (st : JDict × List String) n =>
                if memD st.1 n then (removeKeyD st.1 n, st.2 ++ [n])
                else st) (serversOf doc, [])).2 with
            | [] => none
            | _ :: _ => some (setD doc "mcpServers"
                (JVal.obj ((q :: qs).foldl
                  (fun (st : JDict × List String) n =>
                    if memD st.1 n then (removeKeyD st.1 n, st.2 ++ [n])
                    else st) (serversOf doc, [])).1)))
            = none
          rw [remove_fold_no_hit (q :: qs) (serversOf doc) h]

/-- C10: when none of the named servers is a key of `mcpServers`,
`remove_settings_mcp` performs no write at all and the settings file is
left as it was; a write happens only when the run is not a dry run and
at least one named server was actually present; and the hooks and MCP
mergers called with an empty input list return before reading or
writing the settings file. -/
theorem settings_no_write_when_no_change :
    (∀ (doc : JDict) (names : List String) (dr : Bool),
      (∀ n ∈ names, lookupD (serversOf doc) n = none) →
      remove_settings_mcp doc names dr = none)
    ∧ (∀ (doc : JDict) (names : List String) (dr : Bool) (d : JDict),
        remove_settings_mcp doc names dr = some d →
        dr = false ∧ ∃ n ∈ names, (lookupD (serversOf doc) n).isSome)
    ∧ (∀ (sk dr : Bool) (build : List (String × JDict) → HooksDict)
        (E : HooksDict),
        update_settings_hooks_run sk dr [] build E = none)
    ∧ (∀ (sk dr : Bool) (doc : JDict),
        update_settings_mcp_run sk dr [] doc = none) := by
  refine ⟨remove_settings_mcp_none_of_absent, ?_, ?_, ?_⟩
  · intro doc names dr d h
    cases names with
    | nil => exact absurd h (by simp [remove_settings_mcp])
    | cons q qs =>
        cases dr with
        | true => exact absurd h (by simp [remove_settings_mcp])
        | false =>
            refine ⟨rfl, ?_⟩
            by_contra hnone
            push_neg at hnone
            have hall : ∀ n ∈ q :: qs, lookupD (serversOf doc) n = none := by
              intro n hn
              exact Option.not_isSome_iff_eq_none.mp
                (by simpa using hnone n hn)
            rw [remove_settings_mcp_none_of_absent doc (q :: qs) false
              hall] at h
            exact Option.noConfusion h
  · intro sk dr build E
    cases sk <;> rfl
  · intro sk dr doc
    cases sk <;> rfl

/-- Witness for C10 at a concrete input: removing a server name that is
not a key of `mcpServers` writes nothing. -/
theorem settings_no_write_when_no_change_witness :
    (∀ n ∈ (["ghost"] : List String),
      lookupD (serversOf [("mcpServers",
        JVal.obj [("srv", JVal.str "def")])]) n = none)
    ∧ remove_settings_mcp [("mcpServers",
        JVal.obj [("srv", JVal.str "def")])] ["ghost"] false = none :=
  ⟨fun n hn => by rw [List.mem_singleton.mp hn]; rfl,
    settings_no_write_when_no_change.1
      [("mcpServers", JVal.obj [("srv", JVal.str "def")])] ["ghost"] false
      (fun n hn => by rw [List.mem_singleton.mp hn]; rfl)⟩
